import Mathlib

/-!
# Verification of the ebay_scrape record-extraction pipeline

Shallow embedding of `src/ebay_scrape.py`. Pure Python string functions are
modelled over `List Char`; Python regular expressions (`\d`, `\s`, `\w`) are
modelled over ASCII character classes; `None`-or-exception outcomes are
`Option`; DOM nodes are modelled by the outcomes of the operations the
program performs on them (attribute reads, parent lookup, descendant
queries), with `none` standing for a raised exception (e.g. a stale
element).  Floats produced by `float(...)` on the regex-constrained price
strings are modelled as exact rationals.
-/

namespace EbayScrape

/-! ## Python string primitives -/

/-- ASCII whitespace, modelling Python `str.strip()` / regex `\s`. -/
def isPyWs (c : Char) : Bool :=
  c == ' ' || c == '\t' || c == '\n' || c == '\r' || c == '\x0b' || c == '\x0c'

/-- Python `str.strip()` on a character list. -/
def stripL (cs : List Char) : List Char :=
  ((cs.dropWhile isPyWs).reverse.dropWhile isPyWs).reverse

/-- Python `str.strip()`. -/
def pyStrip (s : String) : String :=
  String.mk (stripL s.data)

/-- Python `s or ""` for a string `s` (the empty string is falsy). -/
def pyOrStr (s : String) : String :=
  if s = "" then "" else s

/-- Python `o or ""` for an optional string `o`. -/
def pyOrOpt (o : Option String) : String :=
  match o with
  | none => ""
  | some s => pyOrStr s

theorem pyOrStr_eq (s : String) : pyOrStr s = s := by
  unfold pyOrStr
  split <;> simp_all

/-- Substring containment (Python `needle in hay`, XPath `contains`). -/
def containsSubL (needle hay : List Char) : Bool :=
  hay.tails.any (fun t => needle.isPrefixOf t)

def containsSub (needle hay : String) : Bool :=
  containsSubL needle.data hay.data

/-- Collapse whitespace runs to a single space and drop a trailing run
(used on already-left-stripped input). -/
def collapseWsL : List Char → List Char
  | [] => []
  | c :: rest =>
    if isPyWs c then
      match collapseWsL rest with
      | [] => []
      | ' ' :: r => ' ' :: r
      | r => ' ' :: r
    else c :: collapseWsL rest

/-- XPath `normalize-space`: strip ends and collapse internal whitespace
runs to a single space. -/
def normSpace (s : String) : String :=
  String.mk (collapseWsL (stripL s.data))

/-- Python `str.lower()` (ASCII model). -/
def lowerL (cs : List Char) : List Char := cs.map Char.toLower

def pyLower (s : String) : String := String.mk (lowerL s.data)

/-- Numeric value of a digit character. -/
def digitVal (c : Char) : Nat := c.toNat - '0'.toNat

/-- Value of a digit string (Python `int(s)` for a digit-only `s`). -/
def natOfDigits (cs : List Char) : Nat :=
  cs.foldl (fun acc c => acc * 10 + digitVal c) 0

/-- Python `s.isdigit()` (ASCII model): nonempty and all digits. -/
def pyIsDigitL (cs : List Char) : Bool :=
  !cs.isEmpty && cs.all Char.isDigit

/-- Python `s.split("-")`. -/
def splitDashL : List Char → List (List Char)
  | [] => [[]]
  | c :: rest =>
    match splitDashL rest with
    | [] => [[]]
    | g :: gs => if c = '-' then [] :: g :: gs else (c :: g) :: gs

/-! ## `RE_ORDER_FULL` and `extract_short_order`
Source lines 24 and 61-66: pattern `^\d{2}-\d{5}-\d{5}$`, then split on
`-` and keep segments 2 and 3. -/

/-- Full match of `RE_ORDER_FULL` = two digits, dash, five digits, dash,
five digits (exactly 14 characters). -/
def matchOrderFullL (cs : List Char) : Bool :=
  match cs with
  | [a, b, c, d, e, f, g, h, i, j, k, l, m, n] =>
    a.isDigit && b.isDigit && c == '-' &&
    d.isDigit && e.isDigit && f.isDigit && g.isDigit && h.isDigit && i == '-' &&
    j.isDigit && k.isDigit && l.isDigit && m.isDigit && n.isDigit
  | _ => false

def matchOrderFull (s : String) : Bool := matchOrderFullL s.data

/-- `extract_short_order` (source lines 61-66). -/
def extract_short_order (full_text : String) : Option String :=
  let t := pyStrip full_text
  if !matchOrderFull t then none
  else
    let parts := (splitDashL t.data).map String.mk
    if parts.length = 3 then some (parts.getD 1 "" ++ "-" ++ parts.getD 2 "")
    else none

/-! ## `extract_item_id_from_url`
Source lines 52-58: `urlparse(href).path`, then `re.search("/itm/(\d+)")`. -/

def takeUntilChar (c : Char) (cs : List Char) : List Char :=
  cs.takeWhile (fun x => x ≠ c)

def isSchemeChar (c : Char) : Bool :=
  c.isAlphanum || c == '+' || c == '-' || c == '.'

/-- Strip a leading `scheme:` when the prefix before the first `:` is a
valid scheme (letter followed by scheme characters). -/
def stripSchemeL (cs : List Char) : List Char :=
  let pre := takeUntilChar ':' cs
  if pre.length < cs.length then
    match pre with
    | [] => cs
    | c0 :: rest =>
      if c0.isAlpha && rest.all isSchemeChar then cs.drop (pre.length + 1) else cs
  else cs

/-- `urlparse(href).path` (model): drop fragment and query, strip the
scheme, and when a `//netloc` follows, the path is what starts at the next
`/`. -/
def urlPathL (cs : List Char) : List Char :=
  let cs := takeUntilChar '#' cs
  let cs := takeUntilChar '?' cs
  let cs := stripSchemeL cs
  match cs with
  | '/' :: '/' :: rest => rest.dropWhile (fun c => c ≠ '/')
  | _ => cs

/-- Try the regex `/itm/(\d+)` at the head of the list. -/
def matchItmAt (cs : List Char) : Option (List Char) :=
  if ['/', 'i', 't', 'm', '/'].isPrefixOf cs then
    let ds := (cs.drop 5).takeWhile Char.isDigit
    if ds.isEmpty then none else some ds
  else none

/-- Leftmost search of `/itm/(\d+)`. -/
def itmSearchL : List Char → Option (List Char)
  | [] => none
  | c :: rest =>
    match matchItmAt (c :: rest) with
    | some ds => some ds
    | none => itmSearchL rest

/-- `extract_item_id_from_url` (source lines 52-58). -/
def extract_item_id_from_url (href : String) : Option String :=
  (itmSearchL (urlPathL href.data)).map String.mk

/-! ## `parse_qty_available`
Source lines 25 and 69-71: `re.search("\((\d+)\s+available\)", IGNORECASE)`. -/

/-- Case-insensitive prefix test. -/
def lowerIsPrefixOf (needle cs : List Char) : Bool :=
  needle.isPrefixOf (lowerL cs)

/-- Try `\((\d+)\s+available\)` at the head of the list. -/
def matchAvailAt (cs : List Char) : Option (List Char) :=
  match cs with
  | '(' :: rest =>
    let ds := rest.takeWhile Char.isDigit
    if ds.isEmpty then none
    else
      let r1 := rest.drop ds.length
      let ws := r1.takeWhile isPyWs
      if ws.isEmpty then none
      else
        let r2 := r1.drop ws.length
        if lowerIsPrefixOf "available)".data r2 then some ds else none
  | _ => none

def availSearchL : List Char → Option (List Char)
  | [] => none
  | c :: rest =>
    match matchAvailAt (c :: rest) with
    | some ds => some ds
    | none => availSearchL rest

/-- `parse_qty_available` (source lines 69-71). -/
def parse_qty_available (text : String) : Option Nat :=
  (availSearchL text.data).map natOfDigits

/-! ## `parse_price`
Source lines 26 and 74-83: strip commas, `re.search("\$?\s*([0-9]+(?:\.[0-9]{2})?)")`,
`float` of the captured group.  The captured value is an integer part plus
an optional pair of fraction digits; we model it exactly as a rational.
`float(...)` of such a group never raises, so the `try/except` is inert. -/

def stripCommasL (cs : List Char) : List Char :=
  cs.filter (fun c => c ≠ ',')

/-- The optional currency symbol `\$?`: consume a leading dollar sign. -/
def dropDollar (cs : List Char) : List Char :=
  match cs with
  | c :: r => if c = '$' then r else c :: r
  | [] => []

/-- `\s*([0-9]+(?:\.[0-9]{2})?)` after the optional symbol; returns the
integer digits and the optional two fraction digits. -/
def matchPriceNum (u : List Char) : Option (List Char × Option (Char × Char)) :=
  let cs2 := u.dropWhile isPyWs
  let ds := cs2.takeWhile Char.isDigit
  if ds.isEmpty then none
  else
    match cs2.drop ds.length with
    | '.' :: a :: b :: _ =>
      if a.isDigit && b.isDigit then some (ds, some (a, b)) else some (ds, none)
    | _ => some (ds, none)

/-- Try `\$?\s*([0-9]+(?:\.[0-9]{2})?)` at the head of the list. -/
def matchPriceAt (cs : List Char) : Option (List Char × Option (Char × Char)) :=
  matchPriceNum (dropDollar cs)

def priceSearchL : List Char → Option (List Char × Option (Char × Char))
  | [] => none
  | c :: rest =>
    match matchPriceAt (c :: rest) with
    | some m => some m
    | none => priceSearchL rest

/-- Exact value of a price match (`float(group)` of `NNN` or `NNN.dd`,
which never raises for this grammar). -/
def priceVal (m : List Char × Option (Char × Char)) : ℚ :=
  match m.2 with
  | none => (natOfDigits m.1 : ℚ)
  | some (a, b) => mkRat (natOfDigits m.1 * 100 + digitVal a * 10 + digitVal b) 100

/-- `parse_price` (source lines 74-83); the argument is `Option String` to
model Python's `None`-or-`str` input, and `if not text` rejects both
`None` and the empty string. -/
def parse_price (text : Option String) : Option ℚ :=
  match text with
  | none => none
  | some t =>
    if t = "" then none
    else
      match priceSearchL (stripCommasL t.data) with
      | none => none
      | some m => some (priceVal m)

/-! ## The document model

A DOM node is modelled by the outcomes of the operations the program
performs on it.  `none` on an attribute read or a query models a raised
(stale-element) exception; `some none` on `get_attribute` models an
attribute that is present-but-null (Python `None`, turned into `""` by
`or ""`).  Descendant links are modelled as a list so the XPath link
predicates of the order-number queries can be interpreted; the remaining
row-scoped queries are modelled by their outcome. -/

/-- A descendant `<a>` element of a row, as seen by the XPath queries. -/
structure Link where
  href : String
  text : String
deriving DecidableEq, Repr

/-- The data of one DOM node. -/
structure NodeData where
  /-- `tag_name` read; `none` = raises. -/
  tagName : Option String
  /-- `get_attribute("class")`; outer `none` = raises, inner = null attribute. -/
  classAttr : Option (Option String)
  /-- `get_attribute("role")`; outer `none` = raises, inner = null attribute. -/
  roleAttr : Option (Option String)
  /-- Descendant `<a>` elements in document order. -/
  links : List Link
  /-- Text of the first `span[contains(@class,'available-quantity')]`
  descendant; `none` = query or text read raises. -/
  availTextQ : Option String
  /-- `./preceding-sibling::strong[1]` of that span: outer `none` = query
  raises, `some none` = found but its text read raises. -/
  sibStrongQ : Option (Option String)
  /-- `.//span[...available-quantity...]/preceding::strong[1]` on the row;
  same convention. -/
  precStrongQ : Option (Option String)
  /-- Text of the first `div.price-column-item` descendant; `none` = the
  query or text read raises (`safe_find_text` then yields `""`). -/
  priceQ : Option String
deriving DecidableEq, Repr

/-- A node position in the tree: the node's own data followed by the data
of its ancestors, bottom-up.  An exhausted list models a failing parent
lookup. -/
abbrev NodeChain := List NodeData

/-! ## `find_row_container` (source lines 86-108) -/

/-- One iteration's attribute reads and row test: `none` if any of the
three reads raises, otherwise whether the node is row-ish
(`tag == "tr"`, `role in ("row", "rowgroup")`, or `"row"`/`"card"` in the
class text, all lower-cased). -/
def nodeRowish (d : NodeData) : Option Bool :=
  match d.tagName, d.classAttr, d.roleAttr with
  | some tag, some clsO, some roleO =>
    let tagL := pyLower tag
    let cls := pyLower (clsO.getD "")
    let role := pyLower (roleO.getD "")
    some (tagL == "tr" || (role == "row" || role == "rowgroup") ||
          (containsSub "row" cls || containsSub "card" cls))
  | _, _, _ => none

/-- The ascension loop: `el` is the original anchor node, the `Nat` the
remaining iterations of `for _ in range(max_hops)`, the final argument the
current node.  Any failure (`break`) and loop exhaustion return `el`. -/
def findRowGo (el : NodeChain) : Nat → NodeChain → NodeChain
  | 0, _ => el
  | n + 1, cur =>
    match cur with
    | [] => el
    | d :: parents =>
      match nodeRowish d with
      | none => el
      | some true => cur
      | some false =>
        match parents with
        | [] => el
        | p :: ps => findRowGo el n (p :: ps)

/-- `find_row_container` with the default `max_hops=12` (the only way the
source calls it). -/
def find_row_container (el : NodeChain) : NodeChain :=
  findRowGo el 12 el

/-! ## Row field extraction (source lines 148-207) -/

/-- Links of the resolved row (descendant query on an exhausted chain
finds nothing). -/
def rowLinks : NodeChain → List Link
  | [] => []
  | d :: _ => d.links

def rowAvailTextQ : NodeChain → Option String
  | [] => none
  | d :: _ => d.availTextQ

def rowSibStrongQ : NodeChain → Option (Option String)
  | [] => none
  | d :: _ => d.sibStrongQ

def rowPrecStrongQ : NodeChain → Option (Option String)
  | [] => none
  | d :: _ => d.precStrongQ

def rowPriceQ : NodeChain → Option String
  | [] => none
  | d :: _ => d.priceQ

/-- XPath predicate of the primary order query:
`a[contains(@href,'/mesh/ord/details') and contains(normalize-space(.),'-')]`. -/
def isOrderDetailsLink (l : Link) : Bool :=
  containsSub "/mesh/ord/details" l.href && containsSub "-" (normSpace l.text)

/-- XPath predicate of the fallback order query: `a[normalize-space(.)]`
(any link with non-empty normalized text). -/
def isNonEmptyTextLink (l : Link) : Bool :=
  normSpace l.text ≠ ""

/-- The order-number extraction (source lines 149-166): try the
order-details link; on query failure fall back to the first non-empty-text
link; in either branch accept the stripped candidate only when it fully
matches `RE_ORDER_FULL`, else leave `order_full` empty. -/
def extractOrderFull (row : NodeChain) : String :=
  match (rowLinks row).find? isOrderDetailsLink with
  | some l =>
    let cand := pyStrip l.text
    if matchOrderFull cand then cand else ""
  | none =>
    match (rowLinks row).find? isNonEmptyTextLink with
    | some l =>
      let cand := pyStrip l.text
      if matchOrderFull cand then cand else ""
    | none => ""

/-- Quantity extraction (source lines 170-191), returning
`(qty_sold, qty_avail)`.  A failure of the availability query skips the
whole block; after `qty_avail` is assigned, a failure in the `<strong>`
lookups reaches the outer `except` and keeps `qty_avail`. -/
def extractQtys (row : NodeChain) : Option Nat × Option Nat :=
  match rowAvailTextQ row with
  | none => (none, none)
  | some at0 =>
    let avail_text := pyStrip at0
    let qty_avail := parse_qty_available avail_text
    let strongRes : Option (Option String) :=
      match rowSibStrongQ row with
      | some tOpt => some tOpt
      | none => rowPrecStrongQ row
    match strongRes with
    | none => (none, qty_avail)
    | some none => (none, qty_avail)
    | some (some s0) =>
      let s := pyStrip s0
      (if pyIsDigitL s.data then some (natOfDigits s.data) else none, qty_avail)

/-- `safe_find_text` for the price column (source lines 111-115, 194). -/
def extractPriceText (row : NodeChain) : String :=
  match rowPriceQ row with
  | none => ""
  | some t => pyStrip t

/-! ## Records and the pipeline (source lines 118-215) -/

/-- The dict appended at source lines 197-207 (all values are strings
there; absent numeric values become `""`). -/
structure Record where
  order_number : String
  order_full : String
  item_id : String
  title : String
  item_url : String
  qty_sold : String
  qty_available : String
  price : String
  price_text : String
deriving DecidableEq, Repr

/-- `f"{price:.2f}"` for a parsed price: the value in cents (exact, since
the price grammar yields at most two fraction digits, so the reduced
denominator divides 100), rendered as `units.cc`. -/
def fmtPrice2 (q : ℚ) : String :=
  let c := q.num.toNat * 100 / q.den
  toString (c / 100) ++ "." ++ (if c % 100 < 10 then "0" else "") ++ toString (c % 100)

/-- An `/itm/` anchor as the loop body observes it. -/
structure Anchor where
  /-- `get_attribute("href")`: outer `none` = raises
  `StaleElementReferenceException`, inner = null attribute. -/
  hrefAttr : Option (Option String)
  /-- `.text`: `none` = raises stale. -/
  textRead : Option String
  /-- The anchor node's own data (queried after row resolution falls back
  to the anchor itself). -/
  node : NodeData
  /-- Data of the anchor's ancestors, bottom-up. -/
  ancestors : List NodeData
deriving DecidableEq, Repr

/-- The anchor node plus ancestors, as passed to `find_row_container`. -/
def Anchor.chain (a : Anchor) : NodeChain := a.node :: a.ancestors

/-- The stripped `href` of an anchor (source line 134), provided no stale
exception occurred. -/
def anchorHref (a : Anchor) : Option String :=
  match a.hrefAttr, a.textRead with
  | some hOpt, some _ => some (pyStrip (pyOrOpt hOpt))
  | _, _ => none

/-- The `(item_id, title)` dedup key of an anchor (source lines 134-141):
`none` when a read raises stale or when no item id can be extracted
(`if not item_id: continue`). -/
def anchorKey (a : Anchor) : Option (String × String) :=
  match a.hrefAttr, a.textRead with
  | some hOpt, some t =>
    let href := pyStrip (pyOrOpt hOpt)
    let title := pyStrip t
    match extract_item_id_from_url href with
    | none => none
    | some item_id => if item_id = "" then none else some (item_id, title)
  | _, _ => none

/-- Building the record dict from the resolved row (source lines 148-207). -/
def buildRecord (item_id title href : String) (row : NodeChain) : Record :=
  let order_full := extractOrderFull row
  let order_short : Option String :=
    if order_full ≠ "" then extract_short_order order_full else none
  let qtys := extractQtys row
  let price_text := extractPriceText row
  let price := parse_price (some price_text)
  { order_number := pyOrOpt order_short
    order_full := pyOrStr order_full
    item_id := pyOrStr item_id
    title := pyOrStr title
    item_url := pyOrStr href
    qty_sold := match qtys.1 with
      | none => ""
      | some n => toString n
    qty_available := match qtys.2 with
      | none => ""
      | some n => toString n
    price := match price with
      | none => ""
      | some q => fmtPrice2 q
    price_text := pyOrStr price_text }

/-- The dedup key actually carried by a record. -/
def recordKey (r : Record) : String × String := (r.item_id, r.title)

/-- Instrumentation of one loop iteration, in source order: a duplicate
key is skipped at line 143 before any row work; a produced record adds
its key to `seen` (line 144), resolves the row (line 146) and appends the
record (line 197), in that order. -/
inductive Event where
  | skippedStale
  | skippedNoId
  | skippedDup (k : String × String)
  | addKey (k : String × String)
  | resolveRow (a : Anchor)
  | emitRec (r : Record)
deriving DecidableEq, Repr

/-- The loop state: `rows` and `seen` as in the source; `resolved` lists
the anchors on which `find_row_container` was invoked and `events` the
per-anchor instrumentation blocks. -/
structure SOState where
  rows : List Record
  seen : List (String × String)
  resolved : List Anchor
  events : List (List Event)
deriving Repr

/-- One iteration of the `for a in item_links` loop body for anchor `a`
(source lines 132-207), returning the new state and whether a record was
appended (so the caller can run the `max_items` break check of line 209). -/
def processAnchor (st : SOState) (a : Anchor) : SOState × Bool :=
  match a.hrefAttr, a.textRead with
  | some _, some _ =>
    match anchorKey a with
    | none => ({ st with events := st.events ++ [[Event.skippedNoId]] }, false)
    | some key =>
      if key ∈ st.seen then
        ({ st with events := st.events ++ [[Event.skippedDup key]] }, false)
      else
        let row := find_row_container a.chain
        let rcd := buildRecord key.1 key.2 ((anchorHref a).getD "") row
        ({ rows := st.rows ++ [rcd]
           seen := st.seen ++ [key]
           resolved := st.resolved ++ [a]
           events := st.events ++ [[Event.addKey key, Event.resolveRow a, Event.emitRec rcd]] },
         true)
  | _, _ => ({ st with events := st.events ++ [[Event.skippedStale]] }, false)

/-- The anchor loop with the post-append `len(rows) >= max_items` break. -/
def scrapeGo (max_items : Nat) : List Anchor → SOState → SOState
  | [], st => st
  | a :: rest, st =>
    let pr := processAnchor st a
    if pr.2 && decide (max_items ≤ pr.1.rows.length) then pr.1
    else scrapeGo max_items rest pr.1

/-- `scrape_orders` over a snapshot's `/itm/` anchors, with the full
instrumented state. -/
def scrape_ordersT (item_links : List Anchor) (max_items : Nat) : SOState :=
  scrapeGo max_items item_links ⟨[], [], [], []⟩

/-- `scrape_orders` (source lines 118-215): the returned record list. -/
def scrape_orders (item_links : List Anchor) (max_items : Nat) : List Record :=
  (scrape_ordersT item_links max_items).rows

/-! ## `filter_out_phantom_rows` (source lines 218-242) -/

def filter_out_phantom_rows : List Record → List Record
  | [] => []
  | r :: rest =>
    let title := pyStrip r.title
    let order_full := pyStrip r.order_full
    let order_number := pyStrip r.order_number
    let price_text := pyStrip r.price_text
    let qty_sold := pyStrip r.qty_sold
    let qty_avail := pyStrip r.qty_available
    if title = "" ∧ order_full = "" ∧ order_number = "" ∧ price_text = "" ∧
        qty_sold = "" ∧ qty_avail = "" then
      filter_out_phantom_rows rest
    else if title = "" ∧ order_full = "" ∧ order_number = "" then
      filter_out_phantom_rows rest
    else
      r :: filter_out_phantom_rows rest

/-! ## `filter_rows_by_manual` (source lines 29, 245-253) -/

def isWordChar (c : Char) : Bool := c.isAlphanum || c == '_'

/-- Match one of the alternation words case-insensitively at the head,
with a word boundary after it. -/
def manualWordAt (cs : List Char) : Bool :=
  ["manual", "guide", "handbook"].any fun w =>
    lowerIsPrefixOf w.data cs &&
      (match cs.drop w.length with
       | [] => true
       | c :: _ => !isWordChar c)

/-- `RE_MANUAL.search`: `\b(manual|guide|handbook)\b`, IGNORECASE; `prev`
is the character before the current position (boundary check). -/
def manualSearchL : Option Char → List Char → Bool
  | prev, cs =>
    (manualWordAt cs && (match prev with
      | none => true
      | some p => !isWordChar p)) ||
    (match cs with
     | [] => false
     | c :: rest => manualSearchL (some c) rest)

def filter_rows_by_manual (rows : List Record) (enabled : Bool) : List Record :=
  if !enabled then rows
  else rows.filter fun r => manualSearchL none (pyStrip r.title).data

/-- The per-source extraction pipeline of the claims: `scrape_orders`
followed by the phantom filter and the content filter (source lines
325-333, minus the account tagging that only adds a constant column). -/
def fullPipeline (item_links : List Anchor) (max_items : Nat) (manualEnabled : Bool) :
    List Record :=
  filter_rows_by_manual (filter_out_phantom_rows (scrape_orders item_links max_items))
    manualEnabled

/-! ## Aggregation key normalization (source lines 398-431)

`main` concatenates per-account row dicts and then runs the
`base_keys`/`setdefault` loop under the comment "ensure every row has the
same keys".  Rows are Python dicts with insertion order; we model them as
association lists with unique keys. -/

/-- A row dict: ordered keys mapping to string values. -/
abbrev RowDict := List (String × String)

def dictKeys (d : RowDict) : List String := d.map Prod.fst

def dictHasKey (d : RowDict) (k : String) : Bool := (dictKeys d).contains k

/-- `r.setdefault(k, "")`: appends `(k, "")` when `k` is absent. -/
def setdefaultEmpty (d : RowDict) (k : String) : RowDict :=
  if dictHasKey d k then d else d ++ [(k, "")]

/-- `for k in base_keys: r.setdefault(k, "")`. -/
def setdefaults (d : RowDict) (ks : List String) : RowDict :=
  ks.foldl setdefaultEmpty d

/-- `for k in list(r.keys()): if k not in base_keys: base_keys.append(k)`. -/
def addNewKeys (base : List String) (d : RowDict) : List String :=
  (dictKeys d).foldl (fun acc k => if k ∈ acc then acc else acc ++ [k]) base

/-- The normalization loop of `main` (source lines 405-413): `base_keys`
starts as the first row's keys; each row is backfilled with the keys known
so far, then contributes its new keys to `base_keys`.  Returns the updated
rows and the final `base_keys`. -/
def normalize_rows : List RowDict → List RowDict × List String
  | [] => ([], [])
  | r0 :: rest =>
    let step := fun (acc : List RowDict × List String) (r : RowDict) =>
      let r' := setdefaults r acc.2
      (acc.1 ++ [r'], addNewKeys acc.2 r')
    (r0 :: rest).foldl step ([], dictKeys r0)

/-- The union of field names over all rows, in first-appearance order. -/
def keysUnion (rows : List RowDict) : List String :=
  rows.foldl addNewKeys []

/-! ## Specification-side definitions

These definitions transcribe the *claims'* wording (not the source) and
are compared with the source-side definitions above by the refinement
theorems below. -/

/-- Claim side (C2): segments 2 and 3 of a full order number joined by
the separator (character positions 3-7 and 9-13 of the 14-character
form). -/
def orderSeg23 (t : String) : String :=
  String.mk ((t.data.drop 3).take 5) ++ "-" ++ String.mk (t.data.drop 9)

/-- Claim side (C3): keep a record unless (1) title, orderFull,
orderNumber, priceText, quantitySold-text and quantityAvailable-text are
all empty, or (2) title, orderFull and orderNumber are all empty. -/
def phantomKeepClaim (r : Record) : Bool :=
  !((pyStrip r.title == "" && pyStrip r.order_full == "" && pyStrip r.order_number == "" &&
     pyStrip r.price_text == "" && pyStrip r.qty_sold == "" && pyStrip r.qty_available == "") ||
    (pyStrip r.title == "" && pyStrip r.order_full == "" && pyStrip r.order_number == ""))

/-- Row test of a node position (fails on an exhausted chain). -/
def chainRowish (c : NodeChain) : Option Bool :=
  match c with
  | [] => none
  | d :: _ => nodeRowish d

/-- Claim side (C4, as stated): ascend accepting the first row-ish node;
on an attribute-read or parent-lookup failure return the *last
successfully visited* node (`lastOk`, the most recent node whose reads
all succeeded — initially the anchor); after the hop limit return the
anchor. -/
def rowResolverClaimGo (el : NodeChain) : NodeChain → Nat → NodeChain → NodeChain
  | _, 0, _ => el
  | lastOk, n + 1, cur =>
    match cur with
    | [] => lastOk
    | d :: parents =>
      match nodeRowish d with
      | none => lastOk
      | some true => cur
      | some false =>
        match parents with
        | [] => cur
        | p :: ps => rowResolverClaimGo el cur n (p :: ps)

def rowResolverClaim (el : NodeChain) : NodeChain :=
  rowResolverClaimGo el el 12 el

/-- Claim side (C4, amended), generalized over the hop budget: among the
first `n` positions of the ancestor walk from `cur`, find the first at
which the attribute reads fail or the node is row-ish; the result is that
node if row-ish, and the anchor `el` in every other case (read failure,
parent exhaustion, hop limit). -/
def resolverSpecGo (el : NodeChain) (n : Nat) (cur : NodeChain) : NodeChain :=
  match ((cur.tails.filter (fun t => !t.isEmpty)).take n).find?
      (fun c => chainRowish c ≠ some false) with
  | some c => if chainRowish c = some true then c else el
  | none => el

/-- Claim side (C4, amended): the 12-hop walk from the anchor. -/
def resolverSpecAmended (el : NodeChain) : NodeChain :=
  resolverSpecGo el 12 el

/-- Claim side (C5, as stated): fallback (b) wants a link with non-empty,
*separator-containing* text. -/
def isSeparatorTextLink (l : Link) : Bool :=
  normSpace l.text ≠ "" && containsSub "-" (normSpace l.text)

/-- Claim side (C5, as stated): ordered fallback (a) order-details link,
(b) non-empty separator-containing-text link, (c) empty; the candidate is
accepted only if it matches the order pattern. -/
def orderTextClaim (row : NodeChain) : String :=
  match ((rowLinks row).find? isOrderDetailsLink).orElse
      (fun _ => (rowLinks row).find? isSeparatorTextLink) with
  | none => ""
  | some l =>
    let cand := pyStrip l.text
    if matchOrderFull cand then cand else ""

/-- Claim side (C5, amended): fallback (b) is any link with non-empty
normalized text, separator or not. -/
def orderTextAmended (row : NodeChain) : String :=
  match ((rowLinks row).find? isOrderDetailsLink).orElse
      (fun _ => (rowLinks row).find? isNonEmptyTextLink) with
  | none => ""
  | some l =>
    let cand := pyStrip l.text
    if matchOrderFull cand then cand else ""

/-- Claim side (C8, as stated): after the optional currency symbol and
whitespace, a number with *up to two* fractional digits (greedily
preferring two, then one, then none). -/
def priceClaimNum (u : List Char) : Option ℚ :=
  let cs2 := u.dropWhile isPyWs
  let ds := cs2.takeWhile Char.isDigit
  if ds.isEmpty then none
  else
    match cs2.drop ds.length with
    | '.' :: a :: b :: _ =>
      if a.isDigit && b.isDigit then
        some (mkRat (natOfDigits ds * 100 + digitVal a * 10 + digitVal b) 100)
      else if a.isDigit then some (mkRat (natOfDigits ds * 10 + digitVal a) 10)
      else some ((natOfDigits ds : ℚ))
    | ['.', a] =>
      if a.isDigit then some (mkRat (natOfDigits ds * 10 + digitVal a) 10)
      else some ((natOfDigits ds : ℚ))
    | _ => some ((natOfDigits ds : ℚ))

def priceClaimMatchAt (cs : List Char) : Option ℚ :=
  priceClaimNum (dropDollar cs)

/-- Claim side (C8, as stated): strip thousands separators and take the
leftmost match. -/
def parsePriceClaim (text : Option String) : Option ℚ :=
  match text with
  | none => none
  | some t => (stripCommasL t.data).tails.findSome? priceClaimMatchAt

/-- Claim side (C8, amended): the fractional part is either absent or
exactly two digits. -/
def priceAmendedNum (u : List Char) : Option ℚ :=
  let cs2 := u.dropWhile isPyWs
  let ds := cs2.takeWhile Char.isDigit
  if ds.isEmpty then none
  else
    match cs2.drop ds.length with
    | '.' :: a :: b :: _ =>
      if a.isDigit && b.isDigit then
        some (mkRat (natOfDigits ds * 100 + digitVal a * 10 + digitVal b) 100)
      else some ((natOfDigits ds : ℚ))
    | _ => some ((natOfDigits ds : ℚ))

def priceAmendedMatchAt (cs : List Char) : Option ℚ :=
  priceAmendedNum (dropDollar cs)

def parsePriceAmended (text : Option String) : Option ℚ :=
  match text with
  | none => none
  | some t => (stripCommasL t.data).tails.findSome? priceAmendedMatchAt

/-- "Extraction fails with stale errors" for an anchor (C10): the
anchor-node reads used by row resolution and every row-scoped field query
raise. -/
def extractionStale (a : Anchor) : Bool :=
  a.node.tagName.isNone && a.node.links.isEmpty && a.node.availTextQ.isNone &&
    a.node.priceQ.isNone

/-- A well-formed per-anchor instrumentation block: a skip, or the
add-key / resolve-row / emit-record sequence in source order for a key
that is the anchor's own. -/
def blockOK : List Event → Bool
  | [Event.skippedStale] => true
  | [Event.skippedNoId] => true
  | [Event.skippedDup _] => true
  | [Event.addKey k, Event.resolveRow a, Event.emitRec _] => anchorKey a == some k
  | _ => false

/-- The run with a bound no prefix of the anchor list can reach (the
"unbounded" run used to count productive anchors). -/
def scrape_all (anchors : List Anchor) : SOState :=
  scrape_ordersT anchors (anchors.length + 1)

/-- Two runs of the per-source pipeline over the same snapshot and
configuration (C9); the dedup set is created afresh inside each run. -/
def runPipelineTwice (item_links : List Anchor) (max_items : Nat) (manualEnabled : Bool) :
    List Record × List Record :=
  (fullPipeline item_links max_items manualEnabled,
   fullPipeline item_links max_items manualEnabled)

/-! ## Concrete fixtures -/

/-- The anchor node of the end-to-end example. -/
def exAnchorData : NodeData :=
  { tagName := some "a", classAttr := some none, roleAttr := some none,
    links := [], availTextQ := none, sibStrongQ := none, precStrongQ := none,
    priceQ := none }

/-- The enclosing row of the end-to-end example. -/
def exRowData : NodeData :=
  { tagName := some "div", classAttr := some (some "order-ROW"), roleAttr := some none,
    links := [⟨"https://www.ebay.com/mesh/ord/details?o=1", "27-13984-70927"⟩],
    availTextQ := some "(2 available)", sibStrongQ := some (some "1"),
    precStrongQ := none, priceQ := some "$19.99" }

def exAnchor : Anchor :=
  { hrefAttr := some (some "https://www.ebay.com/itm/123456?var=0"),
    textRead := some "Widget Manual",
    node := exAnchorData, ancestors := [exRowData] }

/-- A second productive anchor with a distinct key. -/
def exAnchor2 : Anchor :=
  { hrefAttr := some (some "https://www.ebay.com/itm/999888"),
    textRead := some "Gadget Guide",
    node := exAnchorData, ancestors := [exRowData] }

/-- C4 counterexample chain: a readable non-row anchor whose readable
non-row parent has no parent (the parent lookup on it raises). -/
def c4ParentData : NodeData :=
  { tagName := some "div", classAttr := some none, roleAttr := some none,
    links := [], availTextQ := none, sibStrongQ := none, precStrongQ := none,
    priceQ := none }

def c4Chain : NodeChain := [exAnchorData, c4ParentData]

/-- C5 counterexample row: the first non-empty-text link has no
separator, a later link holds the real order number. -/
def c5RowData : NodeData :=
  { tagName := some "tr", classAttr := some none, roleAttr := some none,
    links := [⟨"https://www.ebay.com/x", "foo"⟩,
              ⟨"https://www.ebay.com/y", "27-13984-70927"⟩],
    availTextQ := none, sibStrongQ := none, precStrongQ := none, priceQ := none }

def c5Row : NodeChain := [c5RowData]

/-- C10 fixture: a readable anchor whose row resolution and every field
query raise stale errors. -/
def staleAnchor : Anchor :=
  { hrefAttr := some (some "https://www.ebay.com/itm/777"),
    textRead := some "Ghost Manual",
    node := { tagName := none, classAttr := none, roleAttr := none, links := [],
              availTextQ := none, sibStrongQ := none, precStrongQ := none,
              priceQ := none },
    ancestors := [] }

/-- C7 failing input: the second row introduces a field the first row
lacks. -/
def c7Rows : List RowDict := [[("a", "1")], [("a", "2"), ("b", "3")]]

/-- A record whose only identifying signal is its title. -/
def keptRecord : Record :=
  { order_number := "", order_full := "", item_id := "123", title := "Widget Manual",
    item_url := "", qty_sold := "", qty_available := "", price := "", price_text := "" }

/-! # Theorems -/

/-! ## Character-class facts used by the symbolic proofs -/

theorem digit_not_ws {c : Char} (h : c.isDigit = true) : isPyWs c = false := by
  rcases Bool.eq_false_or_eq_true (isPyWs c) with h' | h'
  · exfalso
    simp only [isPyWs, Bool.or_eq_true, beq_iff_eq] at h'
    rcases h' with ((((rfl | rfl) | rfl) | rfl) | rfl) | rfl <;> exact absurd h (by decide)
  · exact h'

theorem dash_not_ws : isPyWs '-' = false := by decide

theorem digit_ne_dash {c : Char} (h : c.isDigit = true) : (c = '-') = False := by
  simp only [eq_iff_iff, iff_false]
  intro hc
  subst hc
  exact absurd h (by decide)

/-! ## Sanity checks: parsers and the end-to-end example of the spec -/

example : extract_short_order "27-13984-70927" = some "13984-70927" := by decide
example : extract_short_order " 27-13984-70927" = some "13984-70927" := by decide
example : extract_short_order "27-13984-7092" = none := by decide
example : extract_item_id_from_url "https://www.ebay.com/itm/123456?x=1" = some "123456" := by
  decide
example : extract_item_id_from_url "nope" = none := by decide
example : parse_qty_available "(2 Available)" = some 2 := by decide
example : parse_price (some "$19.99") = some (mkRat 1999 100) := rfl
example : parse_price (some "1.5") = some 1 := rfl
example : parse_price (some "") = none := rfl
example : parse_price (some "1,234.00") = some 1234 := rfl

example : find_row_container exAnchor.chain = [exRowData] := by decide

example :
    scrape_orders [exAnchor] 500 =
      [{ order_number := "13984-70927", order_full := "27-13984-70927",
         item_id := "123456", title := "Widget Manual",
         item_url := "https://www.ebay.com/itm/123456?var=0",
         qty_sold := "1", qty_available := "2",
         price := "19.99", price_text := "$19.99" }] := rfl

example : scrape_orders [exAnchor, exAnchor] 500 = scrape_orders [exAnchor] 500 := rfl

/-! ## C2: order-number derivation -/

theorem stripL_of_match {cs : List Char} (h : matchOrderFullL cs = true) :
    stripL cs = cs := by
  match cs, h with
  | [a, b, c, d, e, f, g, h2, i, j, k, l, m, n], h =>
    simp only [matchOrderFullL, Bool.and_eq_true, and_assoc, beq_iff_eq] at h
    obtain ⟨ha, hb, hc, hd, he, hf, hg, hh, hi, hj, hk, hl, hm, hn⟩ := h
    simp [stripL, List.dropWhile_cons, digit_not_ws ha, digit_not_ws hn]

theorem pyStrip_of_match {s : String} (h : matchOrderFull s = true) : pyStrip s = s := by
  show String.mk (stripL s.data) = s
  rw [stripL_of_match h]

theorem splitDashL_of_match {cs : List Char} (h : matchOrderFullL cs = true) :
    splitDashL cs = [cs.take 2, (cs.drop 3).take 5, cs.drop 9] := by
  match cs, h with
  | [a, b, c, d, e, f, g, h2, i, j, k, l, m, n], h =>
    simp only [matchOrderFullL, Bool.and_eq_true, and_assoc, beq_iff_eq] at h
    obtain ⟨ha, hb, hc, hd, he, hf, hg, hh, hi, hj, hk, hl, hm, hn⟩ := h
    subst hc; subst hi
    simp [splitDashL, digit_ne_dash ha, digit_ne_dash hb, digit_ne_dash hd, digit_ne_dash he,
          digit_ne_dash hf, digit_ne_dash hg, digit_ne_dash hh, digit_ne_dash hj,
          digit_ne_dash hk, digit_ne_dash hl, digit_ne_dash hm, digit_ne_dash hn]

/-- When the *stripped* input matches the full pattern — the source
strips before matching — `extract_short_order` yields exactly segments
2 and 3 of the stripped form joined by the separator. -/
theorem extract_short_order_of_match_strip {s : String}
    (h : matchOrderFull (pyStrip s) = true) :
    extract_short_order s = some (orderSeg23 (pyStrip s)) := by
  simp [extract_short_order, h,
    splitDashL_of_match (show matchOrderFullL (pyStrip s).data = true from h), orderSeg23]

/-- On a full-pattern match of the input itself, `extract_short_order`
yields exactly segments 2 and 3 joined by the separator. -/
theorem extract_short_order_of_match {s : String} (h : matchOrderFull s = true) :
    extract_short_order s = some (orderSeg23 s) := by
  have hstrip : pyStrip s = s := pyStrip_of_match h
  have := extract_short_order_of_match_strip (s := s) (by rw [hstrip]; exact h)
  rwa [hstrip] at this

/-- Without a full-pattern match of the stripped text,
`extract_short_order` is absent. -/
theorem extract_short_order_of_no_match {s : String} (h : matchOrderFull (pyStrip s) = false) :
    extract_short_order s = none := by
  simp [extract_short_order, h]

theorem matchOrderFullL_length {cs : List Char} (h : matchOrderFullL cs = true) :
    cs.length = 14 := by
  match cs, h with
  | [a, b, c, d, e, f, g, h2, i, j, k, l, m, n], _ => rfl

theorem orderSeg23_ne_empty {s : String} (h : matchOrderFull s = true) : orderSeg23 s ≠ "" := by
  intro heq
  have hlen : (orderSeg23 s).data.length = 0 := by rw [heq]; rfl
  have h14 : s.data.length = 14 := matchOrderFullL_length h
  have : (orderSeg23 s).data.length = 11 := by
    show (((s.data.drop 3).take 5) ++ ('-' :: []) ++ (s.data.drop 9)).length = 11
    simp [List.length_take, List.length_drop, h14]
  omega

/-- The extracted order text is empty or a full-pattern match. -/
theorem extractOrderFull_empty_or_match (row : NodeChain) :
    extractOrderFull row = "" ∨ matchOrderFull (extractOrderFull row) = true := by
  unfold extractOrderFull
  rcases (rowLinks row).find? isOrderDetailsLink with _ | l
  · rcases (rowLinks row).find? isNonEmptyTextLink with _ | l
    · exact Or.inl rfl
    · by_cases hm : matchOrderFull (pyStrip l.text)
      · exact Or.inr (by simp [hm])
      · exact Or.inl (by simp [hm])
  · by_cases hm : matchOrderFull (pyStrip l.text)
    · exact Or.inr (by simp [hm])
    · exact Or.inl (by simp [hm])

/-- Order fields of a built record: `order_number` is empty exactly when
`order_full` is, and otherwise is derived from it as segments 2+3. -/
theorem buildRecord_order_fields (item_id title href : String) (row : NodeChain) :
    ((buildRecord item_id title href row).order_number = "" ↔
      (buildRecord item_id title href row).order_full = "") ∧
    ((buildRecord item_id title href row).order_full ≠ "" →
      extract_short_order (buildRecord item_id title href row).order_full =
        some (buildRecord item_id title href row).order_number) := by
  have hof : (buildRecord item_id title href row).order_full = extractOrderFull row := by
    simp [buildRecord, pyOrStr_eq]
  rcases extractOrderFull_empty_or_match row with hemp | hmatch
  · have hon0 : (buildRecord item_id title href row).order_number = "" := by
      simp [buildRecord, pyOrOpt, hemp]
    constructor
    · rw [hon0, hof, hemp]
    · rw [hof, hemp]
      intro hne
      exact absurd rfl hne
  · have hne : extractOrderFull row ≠ "" := by
      intro h0
      rw [h0] at hmatch
      exact absurd hmatch (by decide)
    have hshort := extract_short_order_of_match hmatch
    have hon : (buildRecord item_id title href row).order_number =
        orderSeg23 (extractOrderFull row) := by
      simp [buildRecord, pyOrOpt, hne, hshort, pyOrStr_eq]
    constructor
    · rw [hon, hof]
      simp [hne, orderSeg23_ne_empty hmatch]
    · intro _
      rw [hof, hon]
      exact hshort

/-- C2 counterexample: the text with a leading space does not match the
fixed pattern, yet `extract_short_order` does not return absent on it
(the source strips before matching). -/
theorem C2_nonmatching_text_cex :
    matchOrderFull " 27-13984-70927" = false ∧
    extract_short_order " 27-13984-70927" = some "13984-70927" := by
  decide

/-- C2 (amended): for every input string whose *stripped* form matches
the fixed three-segment order pattern, `extract_short_order` returns
segments 2 and 3 of that stripped form joined by the separator — in
particular for every string that itself matches; for any text whose
stripped form does not match it returns absent; and in a built Record,
`orderNumber` is empty exactly when `orderFull` is empty and otherwise is
derived from `orderFull` as segments 2+3. -/
theorem C2_short_order_derivation :
    (∀ s : String, matchOrderFull (pyStrip s) = true →
      extract_short_order s = some (orderSeg23 (pyStrip s))) ∧
    (∀ s : String, matchOrderFull s = true → extract_short_order s = some (orderSeg23 s)) ∧
    (∀ s : String, matchOrderFull (pyStrip s) = false → extract_short_order s = none) ∧
    (∀ (item_id title href : String) (row : NodeChain),
      ((buildRecord item_id title href row).order_number = "" ↔
        (buildRecord item_id title href row).order_full = "") ∧
      ((buildRecord item_id title href row).order_full ≠ "" →
        extract_short_order (buildRecord item_id title href row).order_full =
          some (buildRecord item_id title href row).order_number)) :=
  ⟨fun _ h => extract_short_order_of_match_strip h,
   fun _ h => extract_short_order_of_match h,
   fun _ h => extract_short_order_of_no_match h,
   fun item_id title href row => buildRecord_order_fields item_id title href row⟩

/-- C2 witness: the amended theorem applied at concrete inputs,
including a whitespace-padded string whose stripped form matches. -/
theorem C2_short_order_derivation_witness :
    extract_short_order "  27-13984-70927  " =
      some (orderSeg23 (pyStrip "  27-13984-70927  ")) ∧
    extract_short_order "27-13984-70927" = some (orderSeg23 "27-13984-70927") ∧
    extract_short_order "not an order" = none :=
  ⟨C2_short_order_derivation.1 "  27-13984-70927  " (by decide),
   C2_short_order_derivation.2.1 "27-13984-70927" (by decide),
   C2_short_order_derivation.2.2.1 "not an order" (by decide)⟩

/-! ## C3: the phantom filter -/

theorem phantomKeepClaim_eq_true (r : Record) :
    phantomKeepClaim r = true ↔
      ¬((pyStrip r.title = "" ∧ pyStrip r.order_full = "" ∧ pyStrip r.order_number = "" ∧
          pyStrip r.price_text = "" ∧ pyStrip r.qty_sold = "" ∧
          pyStrip r.qty_available = "") ∨
        (pyStrip r.title = "" ∧ pyStrip r.order_full = "" ∧ pyStrip r.order_number = "")) := by
  simp [phantomKeepClaim]
  tauto

theorem filter_phantom_cons (r : Record) (rest : List Record) :
    filter_out_phantom_rows (r :: rest) =
      if phantomKeepClaim r = true then r :: filter_out_phantom_rows rest
      else filter_out_phantom_rows rest := by
  simp only [filter_out_phantom_rows]
  by_cases h1 : pyStrip r.title = "" ∧ pyStrip r.order_full = "" ∧
      pyStrip r.order_number = "" ∧ pyStrip r.price_text = "" ∧ pyStrip r.qty_sold = "" ∧
      pyStrip r.qty_available = ""
  · have hk : ¬(phantomKeepClaim r = true) := by
      rw [phantomKeepClaim_eq_true]
      exact fun hcontra => hcontra (Or.inl h1)
    simp [h1, hk]
  · by_cases h2 : pyStrip r.title = "" ∧ pyStrip r.order_full = "" ∧
        pyStrip r.order_number = ""
    · have hk : ¬(phantomKeepClaim r = true) := by
        rw [phantomKeepClaim_eq_true]
        exact fun hcontra => hcontra (Or.inr h2)
      simp [h1, h2, hk]
    · have hk : phantomKeepClaim r = true := by
        rw [phantomKeepClaim_eq_true]
        rintro (hc | hc)
        · exact h1 hc
        · exact h2 hc
      simp [h1, h2, hk]

/-- C3: the phantom filter equals a filter by the claim's keep-predicate
(a record is dropped iff the six fields are all empty or the three
identity fields are all empty; kept records pass unchanged, in order),
and any record with a non-empty title is kept. -/
theorem C3_phantom_filter :
    (∀ rows : List Record, filter_out_phantom_rows rows = rows.filter phantomKeepClaim) ∧
    (∀ r : Record, pyStrip r.title ≠ "" → phantomKeepClaim r = true) := by
  constructor
  · intro rows
    induction rows with
    | nil => rfl
    | cons r rest ih =>
      rw [filter_phantom_cons, List.filter_cons]
      cases hk : phantomKeepClaim r <;> simp [hk, ih]
  · intro r h
    rw [phantomKeepClaim_eq_true]
    rintro (hc | hc)
    · exact h hc.1
    · exact h hc.1

/-- C3 witness: the theorem applied to a concrete one-record list and to
a record with only a non-empty title. -/
theorem C3_phantom_filter_witness :
    filter_out_phantom_rows [keptRecord] = [keptRecord].filter phantomKeepClaim ∧
    phantomKeepClaim keptRecord = true :=
  ⟨C3_phantom_filter.1 [keptRecord], C3_phantom_filter.2 keptRecord (by decide)⟩

/-! ## C4: the row resolver -/

theorem findRowGo_spec (n : Nat) :
    ∀ el cur : NodeChain, findRowGo el n cur = resolverSpecGo el n cur := by
  induction n with
  | zero =>
    intro el cur
    simp [findRowGo, resolverSpecGo]
  | succ n ih =>
    intro el cur
    match cur with
    | [] => simp [findRowGo, resolverSpecGo, List.tails]
    | d :: parents =>
      rcases hr : nodeRowish d with _ | b
      · simp [findRowGo, resolverSpecGo, hr, List.tails, chainRowish]
      · cases b
        · match parents with
          | [] =>
            simp [findRowGo, resolverSpecGo, hr, List.tails, chainRowish]
          | p :: ps =>
            have hrec := ih el (p :: ps)
            simp only [findRowGo, hr]
            rw [hrec]
            simp [resolverSpecGo, List.tails, chainRowish, hr]
        · simp [findRowGo, resolverSpecGo, hr, List.tails, chainRowish]

/-- C4 counterexample: on a chain whose readable, non-row parent has no
parent, the source returns the anchor itself while the claim's "last
successfully visited node" is the parent. -/
theorem C4_last_visited_cex :
    find_row_container c4Chain ≠ rowResolverClaim c4Chain := by decide

/-- C4 (amended): `find_row_container` ascends at most 12 hops and
returns the first node of the walk whose tag/role/class mark it as a row;
if an attribute read or parent lookup fails mid-walk, or no candidate is
accepted within the hop limit, it returns the anchor itself (never
propagating the failure). -/
theorem C4_row_resolver :
    ∀ el : NodeChain, find_row_container el = resolverSpecAmended el :=
  fun el => findRowGo_spec 12 el el

/-! ## C5: the order-text fallback chain -/

/-- C5 counterexample: when the first non-empty-text link has no
separator, the source's fallback picks it (and discards it as a
non-match), while the claim's separator-requiring fallback would find the
real order number on a later link. -/
theorem C5_separator_fallback_cex :
    extractOrderFull c5Row ≠ orderTextClaim c5Row := by decide

/-- C5 (amended): order-text extraction is the ordered fallback chain
(a) first order-details link with separator-containing text, (b) failing
that, the first link with any non-empty normalized text (no separator
requirement), (c) failing both, empty; the candidate is accepted as
orderFull only if it matches the fixed pattern, otherwise discarded. -/
theorem C5_order_text_chain :
    ∀ row : NodeChain, extractOrderFull row = orderTextAmended row := by
  intro row
  unfold extractOrderFull orderTextAmended
  rcases h1 : (rowLinks row).find? isOrderDetailsLink with _ | l
  · rcases h2 : (rowLinks row).find? isNonEmptyTextLink with _ | l <;>
      simp [h1, h2, Option.orElse]
  · simp [h1, Option.orElse]

/-! ## C8: price parsing -/

theorem priceAmendedNum_eq (u : List Char) :
    priceAmendedNum u = (matchPriceNum u).map priceVal := by
  unfold priceAmendedNum matchPriceNum
  cases hds : ((u.dropWhile isPyWs).takeWhile Char.isDigit).isEmpty
  · simp only [hds, Bool.false_eq_true, if_false]
    split
    · rename_i a b tail heq
      split <;> simp [priceVal]
    · simp [priceVal]
  · simp [hds]

theorem priceAmendedMatchAt_eq (cs : List Char) :
    priceAmendedMatchAt cs = (matchPriceAt cs).map priceVal :=
  priceAmendedNum_eq (dropDollar cs)

theorem findSome_tails_priceSearch (cs : List Char) :
    cs.tails.findSome? (fun c => (matchPriceAt c).map priceVal) =
      (priceSearchL cs).map priceVal := by
  induction cs with
  | nil => rfl
  | cons c r ih =>
    simp only [List.tails, List.findSome?]
    rcases hm : matchPriceAt (c :: r) with _ | m
    · simp only [hm, Option.map_none']
      rw [ih]
      simp [priceSearchL, hm]
    · simp [priceSearchL, hm]

/-- C8 counterexample: on `"1.5"` the source's pattern (zero or exactly
two fraction digits) captures only `1`, while the claim's "up to two
fractional digits" matcher parses `1.5`. -/
theorem C8_up_to_two_cex :
    parse_price (some "1.5") ≠ parsePriceClaim (some "1.5") := by
  intro h
  have h5 : ((parse_price (some "1.5")).getD 0).num =
      ((parsePriceClaim (some "1.5")).getD 0).num := by rw [h]
  have h6 : ((parse_price (some "1.5")).getD 0).num = 1 := rfl
  have h7 : ((parsePriceClaim (some "1.5")).getD 0).num = 3 := rfl
  rw [h6, h7] at h5
  exact absurd h5 (by decide)

/-- C8 (amended): `parse_price` strips thousands separators and returns
the exact decimal value of the leftmost match of an optional currency
symbol followed by a number whose fractional part is absent or exactly
two digits; it returns absent on no match and never raises, including on
empty or `None` input. -/
theorem C8_parse_price :
    ∀ t : Option String, parse_price t = parsePriceAmended t := by
  intro t
  rcases t with _ | s
  · rfl
  · show parse_price (some s) = parsePriceAmended (some s)
    have hfun : priceAmendedMatchAt = fun c => (matchPriceAt c).map priceVal :=
      funext priceAmendedMatchAt_eq
    by_cases hs : s = ""
    · subst hs
      rfl
    · simp only [parse_price, parsePriceAmended, hs, if_false]
      rw [hfun, findSome_tails_priceSearch]
      rcases priceSearchL (stripCommasL s.data) with _ | m <;> rfl

/-! ## The pipeline loop: behaviour of one iteration -/

theorem anchorKey_none_of_href_none {a : Anchor} (h : a.hrefAttr = none) :
    anchorKey a = none := by
  unfold anchorKey
  rw [h]

theorem anchorKey_none_of_text_none {a : Anchor} (h : a.textRead = none) :
    anchorKey a = none := by
  unfold anchorKey
  rw [h]
  rcases a.hrefAttr with _ | hOpt <;> rfl

/-- A skipped anchor (stale read or no item id) changes no output state. -/
theorem processAnchor_key_none (st : SOState) {a : Anchor} (h : anchorKey a = none) :
    (processAnchor st a).1.rows = st.rows ∧ (processAnchor st a).1.seen = st.seen ∧
    (processAnchor st a).1.resolved = st.resolved ∧ (processAnchor st a).2 = false := by
  unfold processAnchor
  rcases ha : a.hrefAttr with _ | hOpt <;> rcases ht : a.textRead with _ | t <;>
    simp [ha, ht, h]

/-- A duplicate-key anchor is skipped without touching the output state. -/
theorem processAnchor_dup (st : SOState) {a : Anchor} {k : String × String}
    (h : anchorKey a = some k) (hm : k ∈ st.seen) :
    (processAnchor st a).1.rows = st.rows ∧ (processAnchor st a).1.seen = st.seen ∧
    (processAnchor st a).1.resolved = st.resolved ∧ (processAnchor st a).2 = false := by
  unfold processAnchor
  rcases ha : a.hrefAttr with _ | hOpt
  · exact absurd (anchorKey_none_of_href_none ha ▸ h) (by simp)
  · rcases ht : a.textRead with _ | t
    · exact absurd (anchorKey_none_of_text_none ht ▸ h) (by simp)
    · simp [ha, ht, h, hm]

/-- A fresh-key anchor resolves its row, appends its record and registers
its key, then reports that it emitted. -/
theorem processAnchor_emit (st : SOState) {a : Anchor} {k : String × String}
    (h : anchorKey a = some k) (hm : k ∉ st.seen) :
    (processAnchor st a).1.rows =
      st.rows ++ [buildRecord k.1 k.2 ((anchorHref a).getD "") (find_row_container a.chain)] ∧
    (processAnchor st a).1.seen = st.seen ++ [k] ∧
    (processAnchor st a).1.resolved = st.resolved ++ [a] ∧
    (processAnchor st a).2 = true := by
  unfold processAnchor
  rcases ha : a.hrefAttr with _ | hOpt
  · exact absurd (anchorKey_none_of_href_none ha ▸ h) (by simp)
  · rcases ht : a.textRead with _ | t
    · exact absurd (anchorKey_none_of_text_none ht ▸ h) (by simp)
    · simp [ha, ht, h, hm]

/-- Every iteration appends exactly one well-formed instrumentation
block. -/
theorem processAnchor_events (st : SOState) (a : Anchor) :
    ∃ es, (processAnchor st a).1.events = st.events ++ [es] ∧ blockOK es = true := by
  unfold processAnchor
  rcases ha : a.hrefAttr with _ | hOpt
  · exact ⟨[Event.skippedStale], by simp [ha], rfl⟩
  · rcases ht : a.textRead with _ | t
    · exact ⟨[Event.skippedStale], by simp [ha, ht], rfl⟩
    · rcases hk : anchorKey a with _ | k
      · exact ⟨[Event.skippedNoId], by simp [ha, ht, hk], rfl⟩
      · by_cases hm : k ∈ st.seen
        · exact ⟨[Event.skippedDup k], by simp [ha, ht, hk, hm], rfl⟩
        · refine ⟨[Event.addKey k, Event.resolveRow a,
            Event.emitRec (buildRecord k.1 k.2 ((anchorHref a).getD "")
              (find_row_container a.chain))], by simp [ha, ht, hk, hm], ?_⟩
          simp [blockOK, hk]

/-! ## The pipeline loop: global lemmas -/

/-- The dedup set only grows. -/
theorem scrapeGo_seen_mono (anchors : List Anchor) (maxI : Nat) (st : SOState) :
    st.seen ⊆ (scrapeGo maxI anchors st).seen := by
  induction anchors generalizing st with
  | nil => simp [scrapeGo]
  | cons a rest ih =>
    simp only [scrapeGo]
    have hsub : st.seen ⊆ (processAnchor st a).1.seen := by
      rcases hk : anchorKey a with _ | k
      · rw [(processAnchor_key_none st hk).2.1]
        exact List.Subset.refl _
      · by_cases hm : k ∈ st.seen
        · rw [(processAnchor_dup st hk hm).2.1]
          exact List.Subset.refl _
        · rw [(processAnchor_emit st hk hm).2.1]
          exact List.subset_append_left _ _
    split
    · exact hsub
    · exact hsub.trans (ih _)

/-- Rows and the resolved trace only grow. -/
theorem scrapeGo_extend (anchors : List Anchor) (maxI : Nat) (st : SOState) :
    ∃ tr tv, (scrapeGo maxI anchors st).rows = st.rows ++ tr ∧
      (scrapeGo maxI anchors st).resolved = st.resolved ++ tv := by
  induction anchors generalizing st with
  | nil => exact ⟨[], [], by simp [scrapeGo], by simp [scrapeGo]⟩
  | cons a rest ih =>
    simp only [scrapeGo]
    have hstep : ∃ r0 v0, (processAnchor st a).1.rows = st.rows ++ r0 ∧
        (processAnchor st a).1.resolved = st.resolved ++ v0 := by
      rcases hk : anchorKey a with _ | k
      · exact ⟨[], [], by simp [(processAnchor_key_none st hk).1],
          by simp [(processAnchor_key_none st hk).2.2.1]⟩
      · by_cases hm : k ∈ st.seen
        · exact ⟨[], [], by simp [(processAnchor_dup st hk hm).1],
            by simp [(processAnchor_dup st hk hm).2.2.1]⟩
        · exact ⟨_, _, (processAnchor_emit st hk hm).1, (processAnchor_emit st hk hm).2.2.1⟩
    obtain ⟨r0, v0, hr0, hv0⟩ := hstep
    split
    · exact ⟨r0, v0, hr0, hv0⟩
    · obtain ⟨r1, v1, hr1, hv1⟩ := ih (processAnchor st a).1
      exact ⟨r0 ++ r1, v0 ++ v1, by rw [hr1, hr0, List.append_assoc],
        by rw [hv1, hv0, List.append_assoc]⟩

/-- The key carried by a built record is the anchor's dedup key. -/
theorem recordKey_buildRecord (item_id title href : String) (row : NodeChain) :
    recordKey (buildRecord item_id title href row) = (item_id, title) := by
  simp [recordKey, buildRecord, pyOrStr_eq]

/-- Invariant preservation: record keys mirror the dedup set in order,
the dedup set stays duplicate-free, and the resolved anchors' keys mirror
the dedup set. -/
theorem scrapeGo_inv (anchors : List Anchor) (maxI : Nat) (st : SOState)
    (h1 : st.rows.map recordKey = st.seen) (h2 : st.seen.Nodup)
    (h3 : st.resolved.map anchorKey = st.seen.map some) :
    (scrapeGo maxI anchors st).rows.map recordKey = (scrapeGo maxI anchors st).seen ∧
    (scrapeGo maxI anchors st).seen.Nodup ∧
    (scrapeGo maxI anchors st).resolved.map anchorKey =
      (scrapeGo maxI anchors st).seen.map some := by
  induction anchors generalizing st with
  | nil => exact ⟨h1, h2, h3⟩
  | cons a rest ih =>
    simp only [scrapeGo]
    have hstep : (processAnchor st a).1.rows.map recordKey = (processAnchor st a).1.seen ∧
        (processAnchor st a).1.seen.Nodup ∧
        (processAnchor st a).1.resolved.map anchorKey =
          (processAnchor st a).1.seen.map some := by
      rcases hk : anchorKey a with _ | k
      · obtain ⟨hr, hs, hv, _⟩ := processAnchor_key_none st hk
        rw [hr, hs, hv]
        exact ⟨h1, h2, h3⟩
      · by_cases hm : k ∈ st.seen
        · obtain ⟨hr, hs, hv, _⟩ := processAnchor_dup st hk hm
          rw [hr, hs, hv]
          exact ⟨h1, h2, h3⟩
        · obtain ⟨hr, hs, hv, _⟩ := processAnchor_emit st hk hm
          rw [hr, hs, hv]
          refine ⟨?_, ?_, ?_⟩
          · simp [h1, recordKey_buildRecord]
          · simp only [List.nodup_append]
            exact ⟨h2, List.nodup_singleton k, by simpa using hm⟩
          · simp [h3, hk]
    split
    · exact hstep
    · exact ih _ hstep.1 hstep.2.1 hstep.2.2

/-- Bounded length: the loop appends at most one record per anchor. -/
theorem scrapeGo_len_le (anchors : List Anchor) (maxI : Nat) (st : SOState) :
    (scrapeGo maxI anchors st).rows.length ≤ st.rows.length + anchors.length := by
  induction anchors generalizing st with
  | nil => simp [scrapeGo]
  | cons a rest ih =>
    simp only [scrapeGo]
    have hstep : (processAnchor st a).1.rows.length ≤ st.rows.length + 1 := by
      rcases hk : anchorKey a with _ | k
      · rw [(processAnchor_key_none st hk).1]
        omega
      · by_cases hm : k ∈ st.seen
        · rw [(processAnchor_dup st hk hm).1]
          omega
        · rw [(processAnchor_emit st hk hm).1]
          simp
    split
    · calc (processAnchor st a).1.rows.length ≤ st.rows.length + 1 := hstep
        _ ≤ st.rows.length + (a :: rest).length := by simp
    · calc (scrapeGo maxI rest (processAnchor st a).1).rows.length
          ≤ (processAnchor st a).1.rows.length + rest.length := ih _
        _ ≤ st.rows.length + 1 + rest.length := by omega
        _ = st.rows.length + (a :: rest).length := by simp; omega

/-- Completeness: when the bound cannot be hit before the anchor list is
exhausted, every anchor's key ends up in the dedup set. -/
theorem scrapeGo_complete (anchors : List Anchor) (maxI : Nat) (st : SOState)
    (hlen : anchors.length + st.rows.length ≤ maxI) :
    ∀ a ∈ anchors, ∀ k, anchorKey a = some k → k ∈ (scrapeGo maxI anchors st).seen := by
  induction anchors generalizing st with
  | nil => intro a ha; exact absurd ha (List.not_mem_nil a)
  | cons b rest ih =>
    intro a ha k hk
    simp only [scrapeGo]
    rcases hkb : anchorKey b with _ | kb
    · obtain ⟨hr, hs, hv, he⟩ := processAnchor_key_none st hkb
      rw [he]
      simp only [Bool.false_and, if_false]
      rcases List.mem_cons.1 ha with rfl | ha'
      · exact absurd (hkb ▸ hk) (by simp)
      · have hlen' : rest.length + (processAnchor st b).1.rows.length ≤ maxI := by
          rw [hr]
          simp only [List.length_cons] at hlen
          omega
        exact ih _ hlen' a ha' k hk
    · by_cases hm : kb ∈ st.seen
      · obtain ⟨hr, hs, hv, he⟩ := processAnchor_dup st hkb hm
        rw [he]
        simp only [Bool.false_and, if_false]
        rcases List.mem_cons.1 ha with rfl | ha'
        · have hkk : k = kb := by
            rw [hkb] at hk
            injection hk with hinj
            exact hinj.symm
          subst hkk
          exact scrapeGo_seen_mono rest maxI _ (hs ▸ hm)
        · have hlen' : rest.length + (processAnchor st b).1.rows.length ≤ maxI := by
            rw [hr]
            simp only [List.length_cons] at hlen
            omega
          exact ih _ hlen' a ha' k hk
      · obtain ⟨hr, hs, hv, he⟩ := processAnchor_emit st hkb hm
        rw [he]
        have hmem : kb ∈ (processAnchor st b).1.seen := by
          rw [hs]
          simp
        by_cases hbr : maxI ≤ (processAnchor st b).1.rows.length
        · have hrest : rest = [] := by
            rcases rest with _ | ⟨c, cs⟩
            · rfl
            · exfalso
              have : (processAnchor st b).1.rows.length = st.rows.length + 1 := by
                rw [hr]; simp
              simp only [List.length_cons] at hlen
              omega
          subst hrest
          rcases List.mem_cons.1 ha with rfl | ha'
          · have hkk : k = kb := by
              rw [hkb] at hk
              injection hk with hinj
              exact hinj.symm
            subst hkk
            simp only [Bool.true_and, hbr, decide_eq_true_eq, if_pos]
            exact hmem
          · exact absurd ha' (List.not_mem_nil a)
        · simp only [Bool.true_and, decide_eq_true_eq, hbr, if_false]
          rcases List.mem_cons.1 ha with rfl | ha'
          · have hkk : k = kb := by
              rw [hkb] at hk
              injection hk with hinj
              exact hinj.symm
            subst hkk
            exact scrapeGo_seen_mono rest maxI _ hmem
          · have hlen' : rest.length + (processAnchor st b).1.rows.length ≤ maxI := by
              have : (processAnchor st b).1.rows.length = st.rows.length + 1 := by
                rw [hr]; simp
              simp only [List.length_cons] at hlen
              omega
            exact ih _ hlen' a ha' k hk

/-- Truncation: a run bounded by `max1` produces exactly the first `max1`
rows (and resolved anchors) of a run with any larger bound. -/
theorem scrapeGo_take (anchors : List Anchor) (st : SOState) (max1 max2 : Nat)
    (hle : max1 ≤ max2) (hlt : st.rows.length < max1)
    (hls : st.rows.length = st.resolved.length) :
    (scrapeGo max1 anchors st).rows = (scrapeGo max2 anchors st).rows.take max1 ∧
    (scrapeGo max1 anchors st).resolved = (scrapeGo max2 anchors st).resolved.take max1 := by
  induction anchors generalizing st with
  | nil =>
    simp only [scrapeGo]
    constructor
    · exact (List.take_of_length_le (Nat.le_of_lt hlt)).symm
    · exact (List.take_of_length_le (by omega)).symm
  | cons a rest ih =>
    simp only [scrapeGo]
    rcases hk : anchorKey a with _ | k
    · obtain ⟨hr, hs, hv, he⟩ := processAnchor_key_none st hk
      rw [he]
      simp only [Bool.false_and, if_false]
      exact ih _ (by rw [hr]; exact hlt) (by rw [hr, hv]; exact hls)
    · by_cases hm : k ∈ st.seen
      · obtain ⟨hr, hs, hv, he⟩ := processAnchor_dup st hk hm
        rw [he]
        simp only [Bool.false_and, if_false]
        exact ih _ (by rw [hr]; exact hlt) (by rw [hr, hv]; exact hls)
      · obtain ⟨hr, hs, hv, he⟩ := processAnchor_emit st hk hm
        rw [he]
        simp only [Bool.true_and, decide_eq_true_eq]
        have hlen1 : (processAnchor st a).1.rows.length = st.rows.length + 1 := by
          rw [hr]; simp
        have hlenv : (processAnchor st a).1.resolved.length = st.resolved.length + 1 := by
          rw [hv]; simp
        by_cases hbr : max1 ≤ (processAnchor st a).1.rows.length
        · have hmax1 : (processAnchor st a).1.rows.length = max1 := by omega
          rw [if_pos hbr]
          by_cases hbr2 : max2 ≤ (processAnchor st a).1.rows.length
          · rw [if_pos hbr2]
            constructor
            · exact (List.take_of_length_le (by omega)).symm
            · exact (List.take_of_length_le (by omega)).symm
          · rw [if_neg hbr2]
            obtain ⟨tr, tv, htr, htv⟩ := scrapeGo_extend rest max2 (processAnchor st a).1
            constructor
            · rw [htr, ← hmax1, List.take_left]
            · rw [htv, ← hmax1, hlen1, hls, ← hlenv, List.take_left]
          -- resolved take uses the lockstep length
        · rw [if_neg hbr]
          have hbr2 : ¬ max2 ≤ (processAnchor st a).1.rows.length := by omega
          rw [if_neg hbr2]
          exact ih _ (by omega) (by omega)

/-- Every instrumentation block the loop emits is well-formed. -/
theorem scrapeGo_events_ok (anchors : List Anchor) (maxI : Nat) (st : SOState)
    (h : ∀ b ∈ st.events, blockOK b = true) :
    ∀ b ∈ (scrapeGo maxI anchors st).events, blockOK b = true := by
  induction anchors generalizing st with
  | nil => exact h
  | cons a rest ih =>
    simp only [scrapeGo]
    obtain ⟨es, hes, hok⟩ := processAnchor_events st a
    have h' : ∀ b ∈ (processAnchor st a).1.events, blockOK b = true := by
      rw [hes]
      intro b hb
      rcases List.mem_append.1 hb with hb' | hb'
      · exact h b hb'
      · rcases List.mem_singleton.1 hb' with rfl
        exact hok
    split
    · exact h'
    · exact ih _ h'

/-! ## C1: dedup -/

theorem nodup_count_eq_one {α : Type} [BEq α] [LawfulBEq α] {l : List α} {a : α}
    (d : l.Nodup) (h : a ∈ l) : l.count a = 1 := by
  induction l with
  | nil => cases h
  | cons x xs ih =>
    rw [List.count_cons]
    rcases List.mem_cons.1 h with rfl | h'
    · have hx : a ∉ xs := (List.nodup_cons.1 d).1
      rw [List.count_eq_zero.2 hx]
      simp
    · have hne : x ≠ a := by
        intro he
        subst he
        exact (List.nodup_cons.1 d).1 h'
      rw [ih (List.nodup_cons.1 d).2 h']
      simp [hne]

theorem count_map_some {α : Type} [BEq α] [LawfulBEq α] (l : List α) (k : α) :
    (l.map some).count (some k) = l.count k := by
  induction l with
  | nil => rfl
  | cons x xs ih =>
    simp only [List.map_cons, List.count_cons, ih]
    by_cases hx : x = k <;> simp [hx]

/-- C1: within one run, when the bound cannot cut the anchor list short,
a pair carried by at least one anchor yields exactly one record, record
keys are pairwise distinct, and no two resolved anchors share a key
(duplicates are skipped by the dedup check without row resolution). -/
theorem C1_dedup_unique (anchors : List Anchor) (maxI : Nat) (pair : String × String)
    (hmax : anchors.length ≤ maxI)
    (hpair : ∃ a ∈ anchors, anchorKey a = some pair) :
    ((scrape_ordersT anchors maxI).rows.map recordKey).count pair = 1 ∧
    ((scrape_ordersT anchors maxI).rows.map recordKey).Nodup ∧
    ((scrape_ordersT anchors maxI).resolved.map anchorKey).Nodup := by
  simp only [scrape_ordersT]
  obtain ⟨h1, h2, h3⟩ :=
    scrapeGo_inv anchors maxI ⟨[], [], [], []⟩ (by simp) (by simp) (by simp)
  obtain ⟨a, ha, hk⟩ := hpair
  have hmem : pair ∈ (scrapeGo maxI anchors ⟨[], [], [], []⟩).seen :=
    scrapeGo_complete anchors maxI ⟨[], [], [], []⟩ (by simpa using hmax) a ha pair hk
  refine ⟨?_, ?_, ?_⟩
  · rw [h1]
    exact nodup_count_eq_one h2 hmem
  · rw [h1]
    exact h2
  · rw [h3]
    exact h2.map (Option.some_injective _)

/-- C1 witness: two identical anchors, bound not reached. -/
theorem C1_dedup_unique_witness :
    (((scrape_ordersT [exAnchor, exAnchor] 2).rows.map recordKey).count
        ("123456", "Widget Manual") = 1) ∧
    ((scrape_ordersT [exAnchor, exAnchor] 2).rows.map recordKey).Nodup ∧
    ((scrape_ordersT [exAnchor, exAnchor] 2).resolved.map anchorKey).Nodup :=
  C1_dedup_unique [exAnchor, exAnchor] 2 ("123456", "Widget Manual") (by decide)
    ⟨exAnchor, by simp, by decide⟩

/-! ## C6: bounding -/

/-- C6 counterexample: with `max_items = 0` and one productive anchor the
claim demands zero emitted records, but the bound is only checked after
an append, so the source emits one. -/
theorem C6_max_zero_cex :
    0 < (scrape_all [exAnchor]).rows.length ∧
    (scrape_ordersT [exAnchor] 0).rows.length = 1 := by decide

/-- C6 (amended): for `max_items ≥ 1`, when the anchors would yield more
than `max_items` records, the run emits exactly `max_items` records —
the first `max_items` of the unbounded run — and resolves exactly the
anchors that produced them (anchors beyond the cutoff are never
resolved or extracted). -/
theorem C6_bound (anchors : List Anchor) (maxI : Nat) (h1 : 1 ≤ maxI)
    (h2 : maxI < (scrape_all anchors).rows.length) :
    (scrape_ordersT anchors maxI).rows = (scrape_all anchors).rows.take maxI ∧
    (scrape_ordersT anchors maxI).rows.length = maxI ∧
    (scrape_ordersT anchors maxI).resolved = (scrape_all anchors).resolved.take maxI := by
  simp only [scrape_all, scrape_ordersT] at h2 ⊢
  have hlenall := scrapeGo_len_le anchors (anchors.length + 1) ⟨[], [], [], []⟩
  simp only [List.length_nil, Nat.zero_add] at hlenall
  have hle : maxI ≤ anchors.length + 1 := by omega
  have htake := scrapeGo_take anchors ⟨[], [], [], []⟩ maxI (anchors.length + 1) hle
    (by simpa using h1) rfl
  refine ⟨htake.1, ?_, htake.2⟩
  rw [htake.1, List.length_take]
  omega

/-- C6 witness: two productive anchors, bound 1. -/
theorem C6_bound_witness :
    (scrape_ordersT [exAnchor, exAnchor2] 1).rows =
      (scrape_all [exAnchor, exAnchor2]).rows.take 1 ∧
    (scrape_ordersT [exAnchor, exAnchor2] 1).rows.length = 1 ∧
    (scrape_ordersT [exAnchor, exAnchor2] 1).resolved =
      (scrape_all [exAnchor, exAnchor2]).resolved.take 1 :=
  C6_bound [exAnchor, exAnchor2] 1 (by decide) (by decide)

/-! ## C9: idempotence -/

/-- C9: the pipeline (scrape, phantom filter, content filter) is a pure
function of the snapshot and configuration — the dedup set is created
afresh inside each run — so two runs over the same static snapshot yield
identical record sequences. -/
theorem C9_idempotent :
    ∀ (item_links : List Anchor) (max_items : Nat) (manualEnabled : Bool),
      (runPipelineTwice item_links max_items manualEnabled).1 =
        (runPipelineTwice item_links max_items manualEnabled).2 :=
  fun _ _ _ => rfl

/-! ## C10: dedup-set timing versus stale extraction -/

/-- All six non-identity fields of a record built from a fully stale
extraction are empty. -/
theorem buildRecord_stale_fields {a : Anchor} (h : extractionStale a = true)
    (item_id title href : String) :
    (buildRecord item_id title href (find_row_container a.chain)).order_full = "" ∧
    (buildRecord item_id title href (find_row_container a.chain)).order_number = "" ∧
    (buildRecord item_id title href (find_row_container a.chain)).qty_sold = "" ∧
    (buildRecord item_id title href (find_row_container a.chain)).qty_available = "" ∧
    (buildRecord item_id title href (find_row_container a.chain)).price = "" ∧
    (buildRecord item_id title href (find_row_container a.chain)).price_text = "" := by
  have hcomp : a.node.tagName = none ∧ a.node.links = [] ∧ a.node.availTextQ = none ∧
      a.node.priceQ = none := by
    simp only [extractionStale, Bool.and_eq_true, Option.isNone_iff_eq_none,
      List.isEmpty_iff] at h
    tauto
  obtain ⟨ht, hl, hq, hp⟩ := hcomp
  have hrow : find_row_container a.chain = a.chain := by
    show findRowGo a.chain 12 a.chain = a.chain
    have hchain : a.chain = a.node :: a.ancestors := rfl
    rw [hchain]
    simp [findRowGo, nodeRowish, ht]
  have hchain : a.chain = a.node :: a.ancestors := rfl
  have hof : extractOrderFull (find_row_container a.chain) = "" := by
    rw [hrow, hchain]
    simp [extractOrderFull, rowLinks, hl]
  have hqty : extractQtys (find_row_container a.chain) = (none, none) := by
    rw [hrow, hchain]
    simp [extractQtys, rowAvailTextQ, hq]
  have hpt : extractPriceText (find_row_container a.chain) = "" := by
    rw [hrow, hchain]
    simp [extractPriceText, rowPriceQ, hp]
  refine ⟨?_, ?_, ?_, ?_, ?_, ?_⟩ <;>
    simp [buildRecord, hof, hqty, hpt, pyOrStr, pyOrOpt, parse_price]

/-- C10 counterexample: an anchor whose extraction is fully stale is
*not* skipped — its record (with empty extracted fields) is still
emitted, so the claim that no record for the pair appears is false. -/
theorem C10_stale_skip_cex :
    ¬ (∀ (rest : List Anchor) (maxI : Nat) (a : Anchor) (k : String × String),
        anchorKey a = some k → extractionStale a = true →
        ((scrape_ordersT (a :: rest) maxI).rows.map recordKey).count k = 0) := by
  intro h
  have := h [] 5 staleAnchor ("777", "Ghost Manual") (by decide) (by decide)
  exact absurd this (by decide)

/-- C10 (amended): the key is added to the dedup set before row
resolution (every resolve event sits between its add-key and emit events
in one block); a stale failure during extraction does not skip the
anchor — the record is still appended with the affected fields empty —
so exactly one record and one resolution for the pair occur, and later
anchors with the same pair are skipped by the dedup check. -/
theorem C10_stale_extraction (a : Anchor) (rest : List Anchor) (maxI : Nat)
    (k : String × String) (h1 : anchorKey a = some k) (h2 : extractionStale a = true) :
    ((scrape_ordersT (a :: rest) maxI).rows.map recordKey).count k = 1 ∧
    ((scrape_ordersT (a :: rest) maxI).resolved.map anchorKey).count (some k) = 1 ∧
    (∃ r ∈ (scrape_ordersT (a :: rest) maxI).rows, recordKey r = k ∧
      r.order_full = "" ∧ r.order_number = "" ∧ r.qty_sold = "" ∧ r.qty_available = "" ∧
      r.price = "" ∧ r.price_text = "") ∧
    (∀ b ∈ (scrape_ordersT (a :: rest) maxI).events, blockOK b = true) := by
  simp only [scrape_ordersT, scrapeGo]
  have hm : k ∉ (⟨[], [], [], []⟩ : SOState).seen := by simp
  obtain ⟨hr, hs, hv, he⟩ := processAnchor_emit ⟨[], [], [], []⟩ h1 hm
  set st1 := (processAnchor ⟨[], [], [], []⟩ a).1 with hst1
  set rcd := buildRecord k.1 k.2 ((anchorHref a).getD "") (find_row_container a.chain)
    with hrcd
  have hrk : recordKey rcd = k := by
    rw [hrcd, recordKey_buildRecord]
  have hfields := buildRecord_stale_fields h2 k.1 k.2 ((anchorHref a).getD "")
  have hinv1 : st1.rows.map recordKey = st1.seen := by
    rw [hr, hs]
    simp [hrk]
  have hinv2 : st1.seen.Nodup := by
    rw [hs]
    simp
  have hinv3 : st1.resolved.map anchorKey = st1.seen.map some := by
    rw [hv, hs]
    simp [h1]
  have hevents : ∀ b ∈ st1.events, blockOK b = true := by
    obtain ⟨es, hes, hok⟩ := processAnchor_events (⟨[], [], [], []⟩ : SOState) a
    rw [hes]
    intro b hb
    rcases List.mem_append.1 hb with hb' | hb'
    · exact absurd hb' (List.not_mem_nil b)
    · rcases List.mem_singleton.1 hb' with rfl
      exact hok
  have hmem1 : k ∈ st1.seen := by
    rw [hs]
    simp
  rw [he]
  simp only [Bool.true_and, decide_eq_true_eq]
  split
  · refine ⟨?_, ?_, ⟨rcd, ?_, hrk, hfields⟩, hevents⟩
    · rw [hinv1]
      exact nodup_count_eq_one hinv2 hmem1
    · rw [hinv3, hs]
      simp
    · rw [hr]
      simp
  · obtain ⟨g1, g2, g3⟩ := scrapeGo_inv rest maxI st1 hinv1 hinv2 hinv3
    have hmem : k ∈ (scrapeGo maxI rest st1).seen := scrapeGo_seen_mono rest maxI st1 hmem1
    refine ⟨?_, ?_, ?_, scrapeGo_events_ok rest maxI st1 hevents⟩
    · rw [g1]
      exact nodup_count_eq_one g2 hmem
    · rw [g3, count_map_some]
      exact nodup_count_eq_one g2 hmem
    · obtain ⟨tr, tv, htr, htv⟩ := scrapeGo_extend rest maxI st1
      refine ⟨rcd, ?_, hrk, hfields⟩
      rw [htr, hr]
      simp

/-- C10 witness: the amended theorem at a concrete stale anchor and its
duplicate. -/
theorem C10_stale_extraction_witness :
    ((scrape_ordersT [staleAnchor, staleAnchor] 5).rows.map recordKey).count
        ("777", "Ghost Manual") = 1 ∧
    ((scrape_ordersT [staleAnchor, staleAnchor] 5).resolved.map anchorKey).count
        (some ("777", "Ghost Manual")) = 1 ∧
    (∃ r ∈ (scrape_ordersT [staleAnchor, staleAnchor] 5).rows,
      recordKey r = ("777", "Ghost Manual") ∧
      r.order_full = "" ∧ r.order_number = "" ∧ r.qty_sold = "" ∧ r.qty_available = "" ∧
      r.price = "" ∧ r.price_text = "") ∧
    (∀ b ∈ (scrape_ordersT [staleAnchor, staleAnchor] 5).events, blockOK b = true) :=
  C10_stale_extraction staleAnchor [staleAnchor] 5 ("777", "Ghost Manual")
    (by decide) (by decide)

/-! ## C7: aggregation backfill -/

/-- C7: at the failing input the normalization loop of `main` leaves the
first row without the field "b" that a later row introduced, although
"b" is part of the final key set (and of the union of field names) — the
merged output does not have a uniform field set. -/
theorem C7_backfill_misses_late_key :
    "b" ∈ (normalize_rows c7Rows).2 ∧ "b" ∈ keysUnion c7Rows ∧
    ∃ r ∈ (normalize_rows c7Rows).1, dictHasKey r "b" = false := by decide

end EbayScrape
